import Mathlib

/-!
Verification of the USDB search handler (`api/usdb-search.py`).

The Python handler is embedded shallowly: the network (login response,
search response, per-URL archive download) is an explicit input record,
the HTTP event is a record, and the handler is a pure function returning
the response together with the ordered list of network operations it
issued.  Exceptions of the Python runtime are modelled with `Except`.
-/

namespace UsdbSearch

/-- Python's `needle in haystack` substring test on strings. -/
def strContains (s pat : String) : Bool :=
  s.data.tails.any (fun t => pat.data.isPrefixOf t)

/-- Python's `str.lower()` (ASCII case folding, the only case the handler meets). -/
def pyLower (s : String) : String :=
  ⟨s.data.map Char.toLower⟩

/-- Python's `str.endswith(suf)`. -/
def strEndsWith (s suf : String) : Bool :=
  suf.data.isSuffixOf s.data

/-- Python's `str.strip()` with no argument (trim surrounding whitespace). -/
def pyStrip (s : String) : String :=
  ⟨((s.data.dropWhile Char.isWhitespace).reverse.dropWhile Char.isWhitespace).reverse⟩

/-- `urllib.parse.urljoin(base, ref)`, modelled for the reference shapes the
site produces: an absolute URL is kept, otherwise the reference is resolved
against the base authority. -/
def urljoin (base ref : String) : String :=
  if strContains ref "://" then ref
  else if strEndsWith base "/" then base ++ ref
  else if "/".data.isPrefixOf ref.data then base ++ ref
  else base ++ "/" ++ ref

/-- Decimal digit characters of a natural number, most significant first. -/
def natReprChars (n : Nat) : List Char :=
  if n < 10 then [Char.ofNat (48 + n)]
  else natReprChars (n / 10) ++ [Char.ofNat (48 + n % 10)]
  termination_by n
  decreasing_by
    simp only [not_lt] at *
    exact Nat.div_lt_self (by omega) (by omega)

/-- Decimal rendering of an integer, as `json.dumps` prints numbers. -/
def intReprStr (i : Int) : String :=
  if i < 0 then "-" ++ ⟨natReprChars i.natAbs⟩ else ⟨natReprChars i.toNat⟩

/-- JSON values, as produced by `json.loads` on the request body and consumed
by `json.dumps` on the response bodies. -/
inductive Json where
  | null : Json
  | bool : Bool → Json
  | num : Int → Json
  | str : String → Json
  | arr : List Json → Json
  | obj : List (String × Json) → Json

/-- Escaping of one character inside a JSON string literal. -/
def jsonEscapeChar (c : Char) : String :=
  if c = '"' then "\\\"" else if c = '\\' then "\\\\" else String.singleton c

/-- Escaping of a whole JSON string literal body. -/
def jsonEscape (s : String) : String :=
  s.data.foldl (fun acc c => acc ++ jsonEscapeChar c) ""

mutual

/-- `json.dumps` on a JSON value (default separators). -/
def jsonDumps : Json → String
  | .null => "null"
  | .bool true => "true"
  | .bool false => "false"
  | .num i => intReprStr i
  | .str s => "\"" ++ jsonEscape s ++ "\""
  | .arr l => "[" ++ jsonDumpsArr l ++ "]"
  | .obj l => "\x7b" ++ jsonDumpsObj l ++ "\x7d"

/-- Comma-joined rendering of a JSON array's elements. -/
def jsonDumpsArr : List Json → String
  | [] => ""
  | [j] => jsonDumps j
  | j :: rest => jsonDumps j ++ ", " ++ jsonDumpsArr rest

/-- Comma-joined rendering of a JSON object's key/value pairs. -/
def jsonDumpsObj : List (String × Json) → String
  | [] => ""
  | [(k, v)] => "\"" ++ jsonEscape k ++ "\": " ++ jsonDumps v
  | (k, v) :: rest => "\"" ++ jsonEscape k ++ "\": " ++ jsonDumps v ++ ", " ++ jsonDumpsObj rest

end

/-! ### UTF-8 decoding with replacement (`bytes.decode("utf-8", errors="replace")`) -/

/-- The Unicode replacement character U+FFFD used by `errors="replace"`. -/
def replChar : Char := Char.ofNat 0xFFFD

/-- Continuation byte test (`0x80 ≤ b ≤ 0xBF`). -/
def isCont (b : Nat) : Bool := 0x80 ≤ b && b ≤ 0xBF

/-- Scalar value of a two-byte UTF-8 sequence. -/
def val2 (b b1 : Nat) : Nat := (b - 0xC0) * 64 + (b1 - 0x80)

/-- Scalar value of a three-byte UTF-8 sequence. -/
def val3 (b b1 b2 : Nat) : Nat := (b - 0xE0) * 4096 + (b1 - 0x80) * 64 + (b2 - 0x80)

/-- Scalar value of a four-byte UTF-8 sequence. -/
def val4 (b b1 b2 b3 : Nat) : Nat :=
  (b - 0xF0) * 262144 + (b1 - 0x80) * 4096 + (b2 - 0x80) * 64 + (b3 - 0x80)

/-- Acceptable first continuation byte after a three-byte lead, with
CPython's restricted ranges (`E0: A0-BF`, `ED: 80-9F`, otherwise `80-BF`),
which exclude overlong encodings and surrogates. -/
def cont3first (b b1 : Nat) : Bool :=
  if b = 0xE0 then 0xA0 ≤ b1 && b1 ≤ 0xBF
  else if b = 0xED then 0x80 ≤ b1 && b1 ≤ 0x9F
  else isCont b1

/-- Acceptable first continuation byte after a four-byte lead, with
CPython's restricted ranges (`F0: 90-BF`, `F4: 80-8F`, otherwise `80-BF`),
which exclude overlong encodings and values beyond U+10FFFF. -/
def cont4first (b b1 : Nat) : Bool :=
  if b = 0xF0 then 0x90 ≤ b1 && b1 ≤ 0xBF
  else if b = 0xF4 then 0x80 ≤ b1 && b1 ≤ 0x8F
  else isCont b1

/-- Fuel-indexed core of UTF-8 decoding with `errors="replace"`, following
CPython's substitution of maximal subparts: each maximal prefix of a valid
sequence that cannot be completed — a lone invalid byte, a lead whose next
byte is unacceptable, or a truncated sequence at end of input — is replaced
by a single `replChar`, and decoding resumes at the first unconsumed byte.
Each step consumes at least one byte, so `bs.length` fuel always suffices. -/
def utf8DecodeGo : Nat → List Nat → List Char
  | 0, _ => []
  | _ + 1, [] => []
  | fuel + 1, b :: rest =>
    if b < 0x80 then Char.ofNat b :: utf8DecodeGo fuel rest
    else if 0xC2 ≤ b && b ≤ 0xDF then
      match rest with
      | [] => [replChar]
      | b1 :: rest2 =>
        if isCont b1 then Char.ofNat (val2 b b1) :: utf8DecodeGo fuel rest2
        else replChar :: utf8DecodeGo fuel (b1 :: rest2)
    else if 0xE0 ≤ b && b ≤ 0xEF then
      match rest with
      | [] => [replChar]
      | b1 :: rest2 =>
        if cont3first b b1 then
          match rest2 with
          | [] => [replChar]
          | b2 :: rest3 =>
            if isCont b2 then Char.ofNat (val3 b b1 b2) :: utf8DecodeGo fuel rest3
            else replChar :: utf8DecodeGo fuel (b2 :: rest3)
        else replChar :: utf8DecodeGo fuel (b1 :: rest2)
    else if 0xF0 ≤ b && b ≤ 0xF4 then
      match rest with
      | [] => [replChar]
      | b1 :: rest2 =>
        if cont4first b b1 then
          match rest2 with
          | [] => [replChar]
          | b2 :: rest3 =>
            if isCont b2 then
              match rest3 with
              | [] => [replChar]
              | b3 :: rest4 =>
                if isCont b3 then Char.ofNat (val4 b b1 b2 b3) :: utf8DecodeGo fuel rest4
                else replChar :: utf8DecodeGo fuel (b3 :: rest4)
            else replChar :: utf8DecodeGo fuel (b2 :: rest3)
        else replChar :: utf8DecodeGo fuel (b1 :: rest2)
    else replChar :: utf8DecodeGo fuel rest

/-- UTF-8 decoding with `errors="replace"`: total on all byte sequences. -/
def utf8DecodeReplace (bs : List Nat) : List Char :=
  utf8DecodeGo bs.length bs

/-- Fuel-indexed core of strict UTF-8 validity, mirroring the branch
structure of `utf8DecodeGo`: `false` exactly when the decoder meets a
malformed lead, an unacceptable continuation or a truncated sequence. -/
def utf8ValidGo : Nat → List Nat → Bool
  | 0, _ => true
  | _ + 1, [] => true
  | fuel + 1, b :: rest =>
    if b < 0x80 then utf8ValidGo fuel rest
    else if 0xC2 ≤ b && b ≤ 0xDF then
      match rest with
      | [] => false
      | b1 :: rest2 => if isCont b1 then utf8ValidGo fuel rest2 else false
    else if 0xE0 ≤ b && b ≤ 0xEF then
      match rest with
      | [] => false
      | b1 :: rest2 =>
        if cont3first b b1 then
          match rest2 with
          | [] => false
          | b2 :: rest3 => if isCont b2 then utf8ValidGo fuel rest3 else false
        else false
    else if 0xF0 ≤ b && b ≤ 0xF4 then
      match rest with
      | [] => false
      | b1 :: rest2 =>
        if cont4first b b1 then
          match rest2 with
          | [] => false
          | b2 :: rest3 =>
            if isCont b2 then
              match rest3 with
              | [] => false
              | b3 :: rest4 => if isCont b3 then utf8ValidGo fuel rest4 else false
            else false
        else false
    else false

/-- Strict UTF-8 validity of a byte sequence. -/
def utf8Valid (bs : List Nat) : Bool :=
  utf8ValidGo bs.length bs

/-- The decoded text of an archive entry, as a string. -/
def utf8DecodeReplaceStr (bs : List Nat) : String :=
  ⟨utf8DecodeReplace bs⟩

/-! ### Data model of the handler's inputs -/

/-- An anchor element (`<a>`), as found by `col.find("a")`; `href = none`
models an anchor without an `href` attribute, for which `dl_link["href"]`
raises `KeyError`. -/
structure Anchor where
  href : Option String
deriving DecidableEq

/-- A table cell (`<td>`): its stripped-joinable text content and its first
descendant anchor, if any. -/
structure Col where
  text : String
  anch : Option Anchor
deriving DecidableEq

/-- A table row, as the list of its `<td>` cells (`row.find_all("td")`). -/
abbrev Row := List Col

/-- Default cell used for guarded positional access into a row. -/
def colDefault : Col := ⟨"", none⟩

/-- One member of a ZIP archive: its name and its raw bytes. -/
structure ZipEntry where
  name : String
  content : List Nat
deriving DecidableEq

/-- The response to the login POST: the final URL after redirects and the
response body text (the status code is only logged by the handler). -/
structure LoginResp where
  url : String
  text : String

/-- The response to the search GET: its status code and the parsed
`soup.select("table.songlist tr")` row list of its HTML body. -/
structure SearchResp where
  statusCode : Nat
  trs : List Row

/-- The response to a download GET: its status code and the archive parse of
its bytes — `archive = none` models bytes on which `zipfile.ZipFile` raises
`BadZipFile`, `archive = some es` a well-formed archive with entry list `es`
in internal listing order. -/
structure ZipResp where
  statusCode : Nat
  archive : Option (List ZipEntry)

/-- The network's behaviour during one invocation: the login response, the
search response for each query, and the download response for each URL. -/
structure Net where
  login : Option String → Option String → LoginResp
  search : String → SearchResp
  download : String → ZipResp

/-- The process environment: the two credential variables. -/
structure Env where
  email : Option String
  pass : Option String

/-- Python exceptions the handler's `try` block can raise. -/
inductive PyExc where
  | keyError (k : String)
  | attributeError (m : String)
  | jsonDecodeError
deriving DecidableEq

/-- The incoming HTTP event.  `body` abstracts the raw body string through
`json.loads(event.get("body") or "{}")`: `none` models an absent or empty
body string (parsed as the empty JSON object), `some (.error ())` a body
string rejected by `json.loads`, and `some (.ok j)` a body string parsing to
the JSON value `j`. -/
structure Event where
  httpMethod : String
  body : Option (Except Unit Json)

/-- The handler's returned HTTP response. -/
structure Response where
  statusCode : Nat
  body : String
deriving DecidableEq

/-- One network operation issued by the handler, in order. -/
inductive NetOp where
  | loginReq
  | searchReq (q : String)
  | downloadReq (url : String)
deriving DecidableEq

/-- A produced song record (the dict appended to `results`). -/
structure SongResult where
  artist : String
  title : String
  txt : String
  source : String
deriving DecidableEq

/-! ### The pipeline -/

/-- Lookup of a key in a JSON object's pair list with Python `dict`
semantics: a later duplicate key overrides an earlier one. -/
def jsonGet (kvs : List (String × Json)) (k : String) : Option Json :=
  kvs.foldl (fun acc p => if p.1 = k then some p.2 else acc) none

/-- `body.get("query", "").strip()` on the parsed request body, including the
exceptions Python raises on the way: `json.loads` failure, `.get` on a
non-dict parse, `.strip()` on a non-string query value. -/
def queryOf (event : Event) : Except PyExc String :=
  match event.body with
  | none => .ok (pyStrip "")
  | some (.error _) => .error .jsonDecodeError
  | some (.ok j) =>
    match j with
    | .obj kvs =>
      match jsonGet kvs "query" with
      | none => .ok (pyStrip "")
      | some (.str s) => .ok (pyStrip s)
      | some _ => .error (.attributeError "strip")
    | _ => .error (.attributeError "get")

/-- The site base URL against which download references are resolved. -/
def usdbBase : String := "https://usdb.eu"

/-- Names of the archive members with a `".txt"` suffix, matched
case-insensitively, in listing order
(`[f for f in z.namelist() if f.lower().endswith(".txt")]`). -/
def txtNames (es : List ZipEntry) : List String :=
  (es.map (fun e => e.name)).filter (fun n => strEndsWith (pyLower n) ".txt")

/-- `z.read(name)`: the bytes of the archive member called `name`.  CPython's
`zipfile` resolves a name through its `NameToInfo` map, built by iterating the
entry list, so a duplicated name resolves to the *last* entry bearing it. -/
def zipRead (es : List ZipEntry) (n : String) : List Nat :=
  match es.reverse.find? (fun e => e.name == n) with
  | some e => e.content
  | none => []

/-- The extraction step on an opened archive: take the first `".txt"`-named
member in listing order, read it, decode with replacement; `none` when the
archive holds no such member. -/
def extractTxt (es : List ZipEntry) : Option String :=
  match txtNames es with
  | [] => none
  | n :: _ => some (utf8DecodeReplaceStr (zipRead es n))

/-- Processing of a single candidate row: the body of the `for` loop up to
the append, returning `ok none` on the skip paths, `ok (some r)` on a
successful extraction, `error` for an uncaught exception, together with the
download operations issued. -/
def stepRow (net : Net) (row : Row) : Except PyExc (Option SongResult) × List NetOp :=
  let cols := row
  if cols.length < 5 then (.ok none, [])
  else
    let artist := pyStrip (cols.getD 0 colDefault).text
    let title := pyStrip (cols.getD 1 colDefault).text
    match (cols.getLastD colDefault).anch with
    | none => (.ok none, [])
    | some a =>
      match a.href with
      | none => (.error (.keyError "href"), [])
      | some href =>
        let url := urljoin usdbBase href
        let zr := net.download url
        if zr.statusCode ≠ 200 then (.ok none, [.downloadReq url])
        else
          match zr.archive with
          | none => (.ok none, [.downloadReq url])
          | some es =>
            match extractTxt es with
            | none => (.ok none, [.downloadReq url])
            | some txt => (.ok (some ⟨artist, title, txt, "USDB"⟩), [.downloadReq url])

/-- The candidate loop: process rows in order, skip on soft failures,
append on success and stop as soon as three results are accumulated
(`if len(results) >= 3: break`, checked after the append), propagating
uncaught exceptions. -/
def processRows (net : Net) : List Row → List SongResult → Except PyExc (List SongResult) × List NetOp
  | [], acc => (.ok acc, [])
  | row :: rest, acc =>
    match stepRow net row with
    | (.error e, ops) => (.error e, ops)
    | (.ok none, ops) =>
      let next := processRows net rest acc
      (next.1, ops ++ next.2)
    | (.ok (some r), ops) =>
      let acc2 := acc ++ [r]
      if acc2.length ≥ 3 then (.ok acc2, ops)
      else
        let next := processRows net rest acc2
        (next.1, ops ++ next.2)

/-- The candidate rows considered by the handler:
`soup.select("table.songlist tr")[1:11]`. -/
def candidateRows (sr : SearchResp) : List Row :=
  (sr.trs.drop 1).take 10

/-- JSON rendering of one accumulated result record. -/
def songJson (r : SongResult) : Json :=
  .obj [("artist", .str r.artist), ("title", .str r.title),
        ("txt", .str r.txt), ("source", .str r.source)]

/-- Modelled from the spec: the success return is truncated out of
`src/api/usdb-search.py` after `"headers":`; per the spec's external
interface, a success is status 200 with the JSON array of result objects as
body. -/
def successResponse (results : List SongResult) : Response :=
  ⟨200, jsonDumps (.arr (results.map songJson))⟩

/-- Modelled from the spec: the `except` arm of the outermost `try` is in
the truncated tail of `src/api/usdb-search.py`; per the spec's error design,
any unclassified exception is surfaced as status 500 with a JSON body
carrying the exception message and a diagnostic trace string. -/
def fatalResponse (e : PyExc) : Response :=
  let msg := match e with
    | .keyError k => "'" ++ k ++ "'"
    | .attributeError m => m
    | .jsonDecodeError => "Expecting value"
  ⟨500, jsonDumps (.obj [("error", .str msg), ("trace", .str "Traceback (most recent call last)")])⟩

/-- The handler: the embedding of `handler(event, context)`, returning the
response together with the ordered list of network operations issued. -/
def handler (env : Env) (net : Net) (event : Event) : Response × List NetOp :=
  if event.httpMethod ≠ "POST" then (⟨405, "Method Not Allowed"⟩, [])
  else
    match queryOf event with
    | .error e => (fatalResponse e, [])
    | .ok query =>
      if query = "" then
        (⟨400, jsonDumps (.obj [("error", .str "Falta query")])⟩, [])
      else
        let lr := net.login env.email env.pass
        if !strContains lr.url "dashboard" && !strContains lr.text "logout" then
          (⟨401, jsonDumps (.obj [("error", .str "Login falló en USDB")])⟩, [.loginReq])
        else
          let sr := net.search query
          if sr.statusCode ≠ 200 then
            (⟨502, jsonDumps (.obj [("error", .str "USDB no responde")])⟩,
             [.loginReq, .searchReq query])
          else
            match processRows net (candidateRows sr) [] with
            | (.error e, ops) => (fatalResponse e, [.loginReq, .searchReq query] ++ ops)
            | (.ok results, ops) => (successResponse results, [.loginReq, .searchReq query] ++ ops)

/-! ### Concrete fixtures used by the witnesses -/

/-- A well-formed archive with one text member (`"Hola"` in UTF-8). -/
def zipFix : List ZipEntry := [⟨"song.TXT", [72, 111, 108, 97]⟩]

/-- A complete candidate row: five cells, a download anchor in the last. -/
def rowFix (t : String) : Row :=
  [⟨" Artist ", none⟩, ⟨"Title", none⟩, ⟨"lang", none⟩, ⟨"x", none⟩, ⟨"dl", some ⟨some t⟩⟩]

/-- A search page: header row followed by four complete candidate rows. -/
def searchFix : SearchResp :=
  ⟨200, [[], rowFix "/a", rowFix "/b", rowFix "/c", rowFix "/d"]⟩

/-- A network on which everything succeeds. -/
def netFix : Net :=
  { login := fun _ _ => ⟨"https://usdb.eu/dashboard", "hi"⟩,
    search := fun _ => searchFix,
    download := fun _ => ⟨200, some zipFix⟩ }

/-- A network whose login response carries neither success marker. -/
def netLoginFail : Net :=
  { netFix with login := fun _ _ => ⟨"https://usdb.eu/login", "captcha"⟩ }

/-- A network whose search endpoint answers 500. -/
def netSearch500 : Net :=
  { netFix with search := fun _ => ⟨500, []⟩ }

/-- A concrete environment. -/
def envFix : Env := ⟨some "e", some "p"⟩

/-- A POST event whose body parses to `\x7b"query": " hola "\x7d`. -/
def eventFix : Event := ⟨"POST", some (.ok (.obj [("query", .str " hola ")]))⟩

/-! ### Claims -/

/-- C5: for every parsed search page, the Result Lister skips the header row
of the results table and considers at most the first 10 data rows, producing
the candidate sequence in row order (the i-th candidate is the (i+1)-th row
of the table) with length between 0 and 10. -/
theorem c5_lister_skips_header_caps_ten (sr : SearchResp) :
    (candidateRows sr).length ≤ 10 ∧
    candidateRows sr <+: sr.trs.drop 1 ∧
    (∀ i, i < (candidateRows sr).length →
      (candidateRows sr).getD i [] = sr.trs.getD (i + 1) []) := by
  simp only [candidateRows]
  refine ⟨?_, List.take_prefix _ _, ?_⟩
  · rw [List.length_take]
    omega
  · intro i hi
    have hlen : i < (sr.trs.drop 1).length := by
      rw [List.length_take] at hi
      omega
    have hlen2 : i + 1 < sr.trs.length := by
      rw [List.length_drop] at hlen
      omega
    rw [List.getD_eq_getElem _ _ hi, List.getD_eq_getElem _ _ hlen2,
      List.getElem_take, List.getElem_drop]
    congr 1
    omega

/-- Witness for C5 at a concrete search page and index. -/
theorem c5_lister_skips_header_caps_ten_witness :
    (candidateRows searchFix).length ≤ 10 ∧
    (candidateRows searchFix).getD 0 [] = searchFix.trs.getD 1 [] :=
  ⟨(c5_lister_skips_header_caps_ten searchFix).1,
   (c5_lister_skips_header_caps_ten searchFix).2.2 0 (by decide)⟩

/-- C9: for every POST event whose body yields an empty query after trimming
(including a missing body or a missing query field), the handler answers 400
with the JSON error body, and the operation log is empty: no network request
is made. -/
theorem c9_empty_query_400 (env : Env) (net : Net) (event : Event)
    (hm : event.httpMethod = "POST") (hq : queryOf event = .ok "") :
    handler env net event =
      (⟨400, jsonDumps (.obj [("error", .str "Falta query")])⟩, []) := by
  simp [handler, hm, hq]

/-- Witness for C9: a POST event with an absent body. -/
theorem c9_empty_query_400_witness :
    handler envFix netFix ⟨"POST", none⟩ =
      (⟨400, jsonDumps (.obj [("error", .str "Falta query")])⟩, []) :=
  c9_empty_query_400 envFix netFix ⟨"POST", none⟩ rfl rfl

/-- C3: when the login response's final URL lacks `"dashboard"` and its body
lacks `"logout"`, the handler answers 401 with the JSON error body, and the
operation log holds only the login request: no search request is issued. -/
theorem c3_login_failure_401 (env : Env) (net : Net) (event : Event) (q : String)
    (hm : event.httpMethod = "POST") (hq : queryOf event = .ok q) (hne : q ≠ "")
    (hu : strContains (net.login env.email env.pass).url "dashboard" = false)
    (ht : strContains (net.login env.email env.pass).text "logout" = false) :
    handler env net event =
      (⟨401, jsonDumps (.obj [("error", .str "Login falló en USDB")])⟩, [NetOp.loginReq]) ∧
    ∀ s, NetOp.searchReq s ∉ (handler env net event).2 := by
  have h : handler env net event =
      (⟨401, jsonDumps (.obj [("error", .str "Login falló en USDB")])⟩, [NetOp.loginReq]) := by
    simp [handler, hm, hq, hne, hu, ht]
  refine ⟨h, ?_⟩
  intro s
  rw [h]
  simp

/-- Witness for C3 at a marker-free login response. -/
theorem c3_login_failure_401_witness :
    handler envFix netLoginFail eventFix =
      (⟨401, jsonDumps (.obj [("error", .str "Login falló en USDB")])⟩, [NetOp.loginReq]) :=
  (c3_login_failure_401 envFix netLoginFail eventFix "hola" rfl rfl (by decide)
    (by decide) (by decide)).1

/-- C4: when the search request answers any non-200 status, the handler
answers 502 with the JSON error body and no partial results, and the
operation log holds only the login and search requests: no candidate is
fetched. -/
theorem c4_search_non200_502 (env : Env) (net : Net) (event : Event) (q : String)
    (hm : event.httpMethod = "POST") (hq : queryOf event = .ok q) (hne : q ≠ "")
    (hl : strContains (net.login env.email env.pass).url "dashboard" = true ∨
          strContains (net.login env.email env.pass).text "logout" = true)
    (hs : (net.search q).statusCode ≠ 200) :
    handler env net event =
      (⟨502, jsonDumps (.obj [("error", .str "USDB no responde")])⟩,
       [NetOp.loginReq, NetOp.searchReq q]) ∧
    ∀ u, NetOp.downloadReq u ∉ (handler env net event).2 := by
  have h : handler env net event =
      (⟨502, jsonDumps (.obj [("error", .str "USDB no responde")])⟩,
       [NetOp.loginReq, NetOp.searchReq q]) := by
    rcases hl with hl | hl <;> simp [handler, hm, hq, hne, hl, hs]
  refine ⟨h, ?_⟩
  intro u
  rw [h]
  simp

/-- Witness for C4 at a search endpoint answering 500. -/
theorem c4_search_non200_502_witness :
    handler envFix netSearch500 eventFix =
      (⟨502, jsonDumps (.obj [("error", .str "USDB no responde")])⟩,
       [NetOp.loginReq, NetOp.searchReq "hola"]) :=
  (c4_search_non200_502 envFix netSearch500 eventFix "hola" rfl rfl (by decide)
    (Or.inl (by decide)) (by decide)).1

/-! ### Behaviour of the candidate loop -/

/-- A skipped candidate leaves the loop processing the remaining rows. -/
theorem processRows_cons_skip (net : Net) (row : Row) (rest : List Row)
    (acc : List SongResult) (h : (stepRow net row).1 = .ok none) :
    processRows net (row :: rest) acc =
      ((processRows net rest acc).1, (stepRow net row).2 ++ (processRows net rest acc).2) := by
  rcases hsr : stepRow net row with ⟨r1, ops⟩
  rw [hsr] at h
  simp only at h
  subst h
  simp [processRows, hsr]

/-- An exception in a candidate's processing aborts the loop. -/
theorem processRows_cons_error (net : Net) (row : Row) (rest : List Row)
    (acc : List SongResult) (e : PyExc) (h : (stepRow net row).1 = .error e) :
    processRows net (row :: rest) acc = (.error e, (stepRow net row).2) := by
  rcases hsr : stepRow net row with ⟨r1, ops⟩
  rw [hsr] at h
  simp only at h
  subst h
  simp [processRows, hsr]

/-- A successful candidate appends its record, then the loop breaks when
three results are accumulated and otherwise continues. -/
theorem processRows_cons_success (net : Net) (row : Row) (rest : List Row)
    (acc : List SongResult) (r : SongResult) (h : (stepRow net row).1 = .ok (some r)) :
    processRows net (row :: rest) acc =
      if (acc ++ [r]).length ≥ 3 then (.ok (acc ++ [r]), (stepRow net row).2)
      else ((processRows net rest (acc ++ [r])).1,
            (stepRow net row).2 ++ (processRows net rest (acc ++ [r])).2) := by
  rcases hsr : stepRow net row with ⟨r1, ops⟩
  rw [hsr] at h
  simp only at h
  subst h
  by_cases hlen : (acc ++ [r]).length ≥ 3
  · simp [processRows, hsr, hlen]
  · simp [processRows, hsr, hlen]

/-- The per-candidate soft-failure conditions, as the loop meets them: too
few columns; no anchor in the last column; with a download reference, a
non-200 download, a bad archive, or an archive without a `".txt"` member. -/
def softFail (net : Net) (row : Row) : Prop :=
  row.length < 5 ∨
  (5 ≤ row.length ∧
    ((row.getLastD colDefault).anch = none ∨
     (∃ a href, (row.getLastD colDefault).anch = some a ∧ a.href = some href ∧
       ((net.download (urljoin usdbBase href)).statusCode ≠ 200 ∨
        ((net.download (urljoin usdbBase href)).statusCode = 200 ∧
          ((net.download (urljoin usdbBase href)).archive = none ∨
           (∃ es, (net.download (urljoin usdbBase href)).archive = some es ∧
              extractTxt es = none)))))))

/-- C2: every per-candidate soft-failure condition makes the loop body yield
no record and no exception for that candidate, and the loop's outcome on the
remaining candidates is unchanged: the candidate alone is excluded. -/
theorem c2_soft_failure_skips_candidate (net : Net) (row : Row) (rest : List Row)
    (acc : List SongResult) (h : softFail net row) :
    (stepRow net row).1 = .ok none ∧
    processRows net (row :: rest) acc =
      ((processRows net rest acc).1, (stepRow net row).2 ++ (processRows net rest acc).2) := by
  have hstep : (stepRow net row).1 = .ok none := by
    rcases h with h5 | ⟨h5, hrest⟩
    · simp only [stepRow]
      rw [if_pos h5]
    · have hn5 : ¬(row.length < 5) := by omega
      simp only [stepRow]
      rw [if_neg hn5]
      rcases hrest with hanch | ⟨a, href, hanch, hhref, hdl⟩
      · rw [hanch]
      · rw [hanch]
        rcases hdl with hst | ⟨hst, harch⟩
        · simp [hhref, hst]
        · rcases harch with harch | ⟨es, harch, hext⟩
          · simp [hhref, hst, harch]
          · simp [hhref, hst, harch, hext]
  exact ⟨hstep, processRows_cons_skip net row rest acc hstep⟩

/-- A row with a single anchorless cell, for the C2 witness. -/
def rowShort : Row := [⟨"a", none⟩]

/-- Witness for C2: a row with fewer than 5 columns is skipped and the next
candidate is still processed. -/
theorem c2_soft_failure_skips_candidate_witness :
    (stepRow netFix rowShort).1 = .ok none ∧
    processRows netFix (rowShort :: [rowFix "/a"]) [] =
      ((processRows netFix [rowFix "/a"] []).1,
       (stepRow netFix rowShort).2 ++ (processRows netFix [rowFix "/a"] []).2) :=
  c2_soft_failure_skips_candidate netFix rowShort [rowFix "/a"] [] (Or.inl (by decide))

/-- C10: an anchor that lacks an `href` attribute is not handled by the
per-row skip logic: the lookup raises `KeyError("href")`, which aborts the
candidate iteration — no download is issued for this or any later row, and
the loop's outcome is the exception. -/
theorem c10_anchor_without_href_raises (net : Net) (row : Row) (rest : List Row)
    (acc : List SongResult) (a : Anchor) (h5 : 5 ≤ row.length)
    (hanch : (row.getLastD colDefault).anch = some a) (hhref : a.href = none) :
    stepRow net row = (.error (.keyError "href"), []) ∧
    processRows net (row :: rest) acc = (.error (.keyError "href"), []) := by
  have hn5 : ¬(row.length < 5) := by omega
  have hstep : stepRow net row = (.error (.keyError "href"), []) := by
    simp only [stepRow]
    rw [if_neg hn5, hanch]
    simp [hhref]
  refine ⟨hstep, ?_⟩
  have := processRows_cons_error net row rest acc (.keyError "href") (by rw [hstep])
  rw [this, hstep]

/-- A complete row whose download anchor has no `href` attribute. -/
def rowNoHref : Row :=
  [⟨"A", none⟩, ⟨"T", none⟩, ⟨"l", none⟩, ⟨"x", none⟩, ⟨"dl", some ⟨none⟩⟩]

/-- Witness for C10 at a concrete row whose last-column anchor has no href. -/
theorem c10_anchor_without_href_raises_witness :
    stepRow netFix rowNoHref = (.error (.keyError "href"), []) ∧
    processRows netFix (rowNoHref :: [rowFix "/a"]) [] = (.error (.keyError "href"), []) :=
  c10_anchor_without_href_raises netFix rowNoHref [rowFix "/a"] [] ⟨none⟩ (by decide)
    (by decide) (by decide)

/-- Any completed run of the loop is bounded by three results, or by one
more than the entry accumulator when that is already full. -/
theorem processRows_length_bound (net : Net) (rows : List Row) :
    ∀ (acc res : List SongResult) (ops : List NetOp),
      processRows net rows acc = (.ok res, ops) → res.length ≤ max 3 (acc.length + 1) := by
  induction rows with
  | nil =>
    intro acc res ops h
    simp [processRows] at h
    rw [← h.1]
    omega
  | cons row rest ih =>
    intro acc res ops h
    rcases hsr : (stepRow net row).1 with e | o
    · rw [processRows_cons_error net row rest acc e hsr] at h
      simp at h
    · rcases o with _ | r
      · rw [processRows_cons_skip net row rest acc hsr] at h
        have h1 : (processRows net rest acc).1 = .ok res := congrArg Prod.fst h
        have := ih acc res (processRows net rest acc).2
          (by rw [← h1])
        exact this
      · rw [processRows_cons_success net row rest acc r hsr] at h
        by_cases hlen : (acc ++ [r]).length ≥ 3
        · rw [if_pos hlen] at h
          have h1 : List.length res = (acc ++ [r]).length := by
            have := congrArg Prod.fst h
            simp at this
            rw [← this]
          rw [h1]
          simp only [List.length_append, List.length_singleton]
          omega
        · rw [if_neg hlen] at h
          have h1 : (processRows net rest (acc ++ [r])).1 = .ok res := congrArg Prod.fst h
          have hb := ih (acc ++ [r]) res (processRows net rest (acc ++ [r])).2 (by rw [← h1])
          simp only [List.length_append, List.length_singleton] at hb hlen
          omega

/-- A loop run that completes with fewer than three results consumed all its
rows: appending further rows continues processing from its end state. -/
theorem processRows_append_incomplete (net : Net) (l1 : List Row) :
    ∀ (l2 : List Row) (acc res : List SongResult),
      (processRows net l1 acc).1 = .ok res → res.length < 3 →
      processRows net (l1 ++ l2) acc =
        ((processRows net l2 res).1,
         (processRows net l1 acc).2 ++ (processRows net l2 res).2) := by
  induction l1 with
  | nil =>
    intro l2 acc res h _
    simp [processRows] at h
    subst h
    simp [processRows]
  | cons row l1' ih =>
    intro l2 acc res h hlt
    rcases hsr : (stepRow net row).1 with e | o
    · rw [processRows_cons_error net row l1' acc e hsr] at h
      simp at h
    · rcases o with _ | r
      · rw [processRows_cons_skip net row l1' acc hsr] at h
        simp only at h
        rw [List.cons_append,
          processRows_cons_skip net row (l1' ++ l2) acc hsr,
          processRows_cons_skip net row l1' acc hsr,
          ih l2 acc res h hlt]
        simp [List.append_assoc]
      · rw [processRows_cons_success net row l1' acc r hsr] at h
        by_cases hlen : (acc ++ [r]).length ≥ 3
        · rw [if_pos hlen] at h
          simp only at h
          have hres := Except.ok.inj h
          rw [← hres] at hlt
          simp only [List.length_append, List.length_singleton] at hlt hlen
          omega
        · rw [if_neg hlen] at h
          simp only at h
          rw [List.cons_append,
            processRows_cons_success net row (l1' ++ l2) acc r hsr, if_neg hlen,
            processRows_cons_success net row l1' acc r hsr, if_neg hlen,
            ih l2 (acc ++ [r]) res h hlt]
          simp [List.append_assoc]

/-- C1: starting from an empty accumulator the loop returns at most three
results, and as soon as a third success occurs the loop stops there: the
rows after the candidate that produced the third success contribute neither
results nor network operations. -/
theorem c1_stops_after_third_success :
    (∀ (net : Net) (rows : List Row) (res : List SongResult) (ops : List NetOp),
       processRows net rows [] = (.ok res, ops) → res.length ≤ 3) ∧
    (∀ (net : Net) (pre : List Row) (r : Row) (post : List Row)
       (res2 : List SongResult) (s : SongResult) (opsr : List NetOp),
       (processRows net pre []).1 = .ok res2 → res2.length = 2 →
       stepRow net r = (.ok (some s), opsr) →
       processRows net (pre ++ r :: post) [] =
         (.ok (res2 ++ [s]), (processRows net pre []).2 ++ opsr)) := by
  constructor
  · intro net rows res ops h
    have := processRows_length_bound net rows [] res ops h
    simpa using this
  · intro net pre r post res2 s opsr hpre h2 hr
    rw [processRows_append_incomplete net pre (r :: post) [] res2 hpre (by omega)]
    have hsr1 : (stepRow net r).1 = .ok (some s) := by rw [hr]
    rw [processRows_cons_success net r post res2 s hsr1]
    rw [if_pos (by simp [h2])]
    rw [hr]

/-- The record extracted from `zipFix` by a successful candidate. -/
def songFix : SongResult := ⟨"Artist", "Title", "Hola", "USDB"⟩

/-- Witness for C1: with two successes accumulated, a third success ends the
loop; the trailing row is never fetched. -/
theorem c1_stops_after_third_success_witness :
    processRows netFix ([rowFix "/a", rowFix "/b"] ++ rowFix "/c" :: [rowFix "/d"]) [] =
      (.ok ([songFix, songFix] ++ [songFix]),
       (processRows netFix [rowFix "/a", rowFix "/b"] []).2 ++
         [NetOp.downloadReq "https://usdb.eu/c"]) :=
  c1_stops_after_third_success.2 netFix [rowFix "/a", rowFix "/b"] (rowFix "/c")
    [rowFix "/d"] [songFix, songFix] songFix [NetOp.downloadReq "https://usdb.eu/c"]
    rfl rfl rfl

/-! ### Archive extraction order (C6) -/

/-- The first archive member whose name matches the `".txt"` suffix
case-insensitively, in listing order. -/
def firstTxtEntry (es : List ZipEntry) : Option ZipEntry :=
  es.find? (fun x => strEndsWith (pyLower x.name) ".txt")

/-- `find?` returns the head of the filtered list. -/
theorem find?_eq_head?_filter {α : Type} (p : α → Bool) (l : List α) :
    l.find? p = (l.filter p).head? := by
  induction l with
  | nil => rfl
  | cons a l ih =>
    cases h : p a
    · rw [List.find?_cons, List.filter_cons, h]
      exact ih
    · rw [List.find?_cons, List.filter_cons, h]
      rfl

/-- Reading a member name held by exactly one entry yields that entry's
bytes. -/
theorem zipRead_of_uniq (es : List ZipEntry) (e : ZipEntry) (hmem : e ∈ es)
    (huniq : ∀ x ∈ es, x.name = e.name → x = e) :
    zipRead es e.name = e.content := by
  rw [zipRead]
  cases hx : es.reverse.find? (fun x => x.name == e.name) with
  | none =>
    exfalso
    have hall := List.find?_eq_none.mp hx e (List.mem_reverse.mpr hmem)
    exact hall (beq_self_eq_true e.name)
  | some x =>
    have hpx : x.name = e.name := by
      have := List.find?_some hx
      exact eq_of_beq this
    have hxmem : x ∈ es := List.mem_reverse.mp (List.mem_of_find?_eq_some hx)
    have hxe : x = e := huniq x hxmem hpx
    exact congrArg ZipEntry.content hxe

/-- A duplicate-name archive: two `".txt"` members called `"a.txt"`, holding
`"A"` and `"B"`. -/
def dupZip : List ZipEntry := [⟨"a.txt", [65]⟩, ⟨"a.txt", [66]⟩]

/-- Counterexample to C6 as stated: in `dupZip` the first matching entry in
listing order holds `"A"`, but the extraction yields `"B"`, the content of
the last entry bearing the first matching name. -/
theorem c6_counterexample_duplicate_name :
    firstTxtEntry dupZip = some ⟨"a.txt", [65]⟩ ∧
    utf8DecodeReplaceStr [65] = "A" ∧
    extractTxt dupZip = some "B" ∧
    extractTxt dupZip ≠ some (utf8DecodeReplaceStr [65]) := by decide

/-- C6 (amended): entry names are matched against the `".txt"` suffix
case-insensitively and the extracted text is read under the first matching
name in the archive's internal listing order, with no sorting applied; it is
the first matching entry's content whenever no later entry reuses that
entry's name (the zip library resolves a repeated name to its last
occurrence). -/
theorem c6_first_txt_in_listing_order (es : List ZipEntry) (e : ZipEntry)
    (hfind : firstTxtEntry es = some e)
    (huniq : ∀ x ∈ es, x.name = e.name → x = e) :
    extractTxt es = some (utf8DecodeReplaceStr e.content) := by
  have hhead : (es.filter (fun x => strEndsWith (pyLower x.name) ".txt")).head? = some e := by
    rw [← find?_eq_head?_filter]
    exact hfind
  cases hF : es.filter (fun x => strEndsWith (pyLower x.name) ".txt") with
  | nil => rw [hF] at hhead; simp at hhead
  | cons x t =>
    rw [hF] at hhead
    simp at hhead
    subst hhead
    have hmem : x ∈ es := List.mem_of_find?_eq_some hfind
    have htxt : txtNames es = x.name :: t.map (fun y => y.name) := by
      rw [txtNames, List.filter_map]
      have hcomp : ((fun n => strEndsWith (pyLower n) ".txt") ∘ (fun y : ZipEntry => y.name)) =
          (fun y : ZipEntry => strEndsWith (pyLower y.name) ".txt") := rfl
      rw [hcomp, hF]
      rfl
    have hread : zipRead es x.name = x.content := zipRead_of_uniq es x hmem huniq
    rw [extractTxt, htxt]
    show some (utf8DecodeReplaceStr (zipRead es x.name)) = some (utf8DecodeReplaceStr x.content)
    rw [hread]

/-- Witness for C6 (amended) at a singleton archive with an uppercase name. -/
theorem c6_first_txt_in_listing_order_witness :
    extractTxt zipFix = some (utf8DecodeReplaceStr [72, 111, 108, 97]) :=
  c6_first_txt_in_listing_order zipFix ⟨"song.TXT", [72, 111, 108, 97]⟩ rfl (by decide)

/-! ### Decoding safety (C7) -/

/-- One decoding step on an ASCII byte. -/
theorem utf8Decode_ascii (fuel b : Nat) (rest : List Nat) (h : b < 128) :
    utf8DecodeGo (fuel + 1) (b :: rest) = Char.ofNat b :: utf8DecodeGo fuel rest := by
  cases rest with
  | nil => rw [utf8DecodeGo, if_pos h]
  | cons x r1 =>
    cases r1 with
    | nil => rw [utf8DecodeGo, if_pos h]
    | cons y r2 =>
      cases r2 with
      | nil => rw [utf8DecodeGo, if_pos h]
      | cons z r3 => rw [utf8DecodeGo, if_pos h]

/-- One validation step on an ASCII byte. -/
theorem utf8Valid_ascii (fuel b : Nat) (rest : List Nat) (h : b < 128) :
    utf8ValidGo (fuel + 1) (b :: rest) = utf8ValidGo fuel rest := by
  cases rest with
  | nil => rw [utf8ValidGo, if_pos h]
  | cons x r1 =>
    cases r1 with
    | nil => rw [utf8ValidGo, if_pos h]
    | cons y r2 =>
      cases r2 with
      | nil => rw [utf8ValidGo, if_pos h]
      | cons z r3 => rw [utf8ValidGo, if_pos h]

/-- One decoding step on a truncated two-byte lead. -/
theorem utf8Decode_two_nil (fuel b : Nat) (h1 : ¬b < 128)
    (h2 : (0xC2 ≤ b && b ≤ 0xDF) = true) :
    utf8DecodeGo (fuel + 1) [b] = [replChar] := by
  rw [utf8DecodeGo, if_neg h1, if_pos h2]

/-- One decoding step on a two-byte lead with a following byte. -/
theorem utf8Decode_two (fuel b b1 : Nat) (rest2 : List Nat) (h1 : ¬b < 128)
    (h2 : (0xC2 ≤ b && b ≤ 0xDF) = true) :
    utf8DecodeGo (fuel + 1) (b :: b1 :: rest2) =
      if isCont b1 then Char.ofNat (val2 b b1) :: utf8DecodeGo fuel rest2
      else replChar :: utf8DecodeGo fuel (b1 :: rest2) := by
  cases rest2 with
  | nil => rw [utf8DecodeGo, if_neg h1, if_pos h2]
  | cons y r2 =>
    cases r2 with
    | nil => rw [utf8DecodeGo, if_neg h1, if_pos h2]
    | cons z r3 => rw [utf8DecodeGo, if_neg h1, if_pos h2]

/-- One validation step on a two-byte lead with a following byte. -/
theorem utf8Valid_two (fuel b b1 : Nat) (rest2 : List Nat) (h1 : ¬b < 128)
    (h2 : (0xC2 ≤ b && b ≤ 0xDF) = true) :
    utf8ValidGo (fuel + 1) (b :: b1 :: rest2) =
      if isCont b1 then utf8ValidGo fuel rest2 else false := by
  cases rest2 with
  | nil => rw [utf8ValidGo, if_neg h1, if_pos h2]
  | cons y r2 =>
    cases r2 with
    | nil => rw [utf8ValidGo, if_neg h1, if_pos h2]
    | cons z r3 => rw [utf8ValidGo, if_neg h1, if_pos h2]

/-- One decoding step on a bare three-byte lead. -/
theorem utf8Decode_three_nil (fuel b : Nat) (h1 : ¬b < 128)
    (h2 : ¬((0xC2 ≤ b && b ≤ 0xDF) = true)) (h3 : (0xE0 ≤ b && b ≤ 0xEF) = true) :
    utf8DecodeGo (fuel + 1) [b] = [replChar] := by
  rw [utf8DecodeGo, if_neg h1, if_neg h2, if_pos h3]

/-- One decoding step on a three-byte lead with one following byte: the lead
and an acceptable continuation form one maximal subpart, an unacceptable
following byte leaves the lead alone as the subpart. -/
theorem utf8Decode_three_one (fuel b b1 : Nat) (h1 : ¬b < 128)
    (h2 : ¬((0xC2 ≤ b && b ≤ 0xDF) = true)) (h3 : (0xE0 ≤ b && b ≤ 0xEF) = true) :
    utf8DecodeGo (fuel + 1) [b, b1] =
      if cont3first b b1 then [replChar]
      else replChar :: utf8DecodeGo fuel [b1] := by
  rw [utf8DecodeGo, if_neg h1, if_neg h2, if_pos h3]

/-- One decoding step on a three-byte lead with two following bytes. -/
theorem utf8Decode_three (fuel b b1 b2 : Nat) (rest3 : List Nat) (h1 : ¬b < 128)
    (h2 : ¬((0xC2 ≤ b && b ≤ 0xDF) = true)) (h3 : (0xE0 ≤ b && b ≤ 0xEF) = true) :
    utf8DecodeGo (fuel + 1) (b :: b1 :: b2 :: rest3) =
      if cont3first b b1 then
        if isCont b2 then Char.ofNat (val3 b b1 b2) :: utf8DecodeGo fuel rest3
        else replChar :: utf8DecodeGo fuel (b2 :: rest3)
      else replChar :: utf8DecodeGo fuel (b1 :: b2 :: rest3) := by
  cases rest3 with
  | nil => rw [utf8DecodeGo, if_neg h1, if_neg h2, if_pos h3]
  | cons z r3 => rw [utf8DecodeGo, if_neg h1, if_neg h2, if_pos h3]

/-- One validation step on a three-byte lead with two following bytes. -/
theorem utf8Valid_three (fuel b b1 b2 : Nat) (rest3 : List Nat) (h1 : ¬b < 128)
    (h2 : ¬((0xC2 ≤ b && b ≤ 0xDF) = true)) (h3 : (0xE0 ≤ b && b ≤ 0xEF) = true) :
    utf8ValidGo (fuel + 1) (b :: b1 :: b2 :: rest3) =
      if cont3first b b1 then
        (if isCont b2 then utf8ValidGo fuel rest3 else false)
      else false := by
  cases rest3 with
  | nil => rw [utf8ValidGo, if_neg h1, if_neg h2, if_pos h3]
  | cons z r3 => rw [utf8ValidGo, if_neg h1, if_neg h2, if_pos h3]

/-- One decoding step on a bare four-byte lead. -/
theorem utf8Decode_four_nil (fuel b : Nat) (h1 : ¬b < 128)
    (h2 : ¬((0xC2 ≤ b && b ≤ 0xDF) = true)) (h3 : ¬((0xE0 ≤ b && b ≤ 0xEF) = true))
    (h4 : (0xF0 ≤ b && b ≤ 0xF4) = true) :
    utf8DecodeGo (fuel + 1) [b] = [replChar] := by
  rw [utf8DecodeGo, if_neg h1, if_neg h2, if_neg h3, if_pos h4]

/-- One decoding step on a four-byte lead with one following byte. -/
theorem utf8Decode_four_one (fuel b b1 : Nat) (h1 : ¬b < 128)
    (h2 : ¬((0xC2 ≤ b && b ≤ 0xDF) = true)) (h3 : ¬((0xE0 ≤ b && b ≤ 0xEF) = true))
    (h4 : (0xF0 ≤ b && b ≤ 0xF4) = true) :
    utf8DecodeGo (fuel + 1) [b, b1] =
      if cont4first b b1 then [replChar]
      else replChar :: utf8DecodeGo fuel [b1] := by
  rw [utf8DecodeGo, if_neg h1, if_neg h2, if_neg h3, if_pos h4]

/-- One decoding step on a four-byte lead with two following bytes. -/
theorem utf8Decode_four_two (fuel b b1 b2 : Nat) (h1 : ¬b < 128)
    (h2 : ¬((0xC2 ≤ b && b ≤ 0xDF) = true)) (h3 : ¬((0xE0 ≤ b && b ≤ 0xEF) = true))
    (h4 : (0xF0 ≤ b && b ≤ 0xF4) = true) :
    utf8DecodeGo (fuel + 1) [b, b1, b2] =
      if cont4first b b1 then
        if isCont b2 then [replChar]
        else replChar :: utf8DecodeGo fuel [b2]
      else replChar :: utf8DecodeGo fuel [b1, b2] := by
  rw [utf8DecodeGo, if_neg h1, if_neg h2, if_neg h3, if_pos h4]

/-- One decoding step on a four-byte lead with three following bytes. -/
theorem utf8Decode_four (fuel b b1 b2 b3 : Nat) (rest4 : List Nat) (h1 : ¬b < 128)
    (h2 : ¬((0xC2 ≤ b && b ≤ 0xDF) = true)) (h3 : ¬((0xE0 ≤ b && b ≤ 0xEF) = true))
    (h4 : (0xF0 ≤ b && b ≤ 0xF4) = true) :
    utf8DecodeGo (fuel + 1) (b :: b1 :: b2 :: b3 :: rest4) =
      if cont4first b b1 then
        if isCont b2 then
          if isCont b3 then Char.ofNat (val4 b b1 b2 b3) :: utf8DecodeGo fuel rest4
          else replChar :: utf8DecodeGo fuel (b3 :: rest4)
        else replChar :: utf8DecodeGo fuel (b2 :: b3 :: rest4)
      else replChar :: utf8DecodeGo fuel (b1 :: b2 :: b3 :: rest4) := by
  rw [utf8DecodeGo, if_neg h1, if_neg h2, if_neg h3, if_pos h4]

/-- One validation step on a four-byte lead with three following bytes. -/
theorem utf8Valid_four (fuel b b1 b2 b3 : Nat) (rest4 : List Nat) (h1 : ¬b < 128)
    (h2 : ¬((0xC2 ≤ b && b ≤ 0xDF) = true)) (h3 : ¬((0xE0 ≤ b && b ≤ 0xEF) = true))
    (h4 : (0xF0 ≤ b && b ≤ 0xF4) = true) :
    utf8ValidGo (fuel + 1) (b :: b1 :: b2 :: b3 :: rest4) =
      if cont4first b b1 then
        (if isCont b2 then
          (if isCont b3 then utf8ValidGo fuel rest4 else false)
        else false)
      else false := by
  rw [utf8ValidGo, if_neg h1, if_neg h2, if_neg h3, if_pos h4]

/-- One decoding step on a byte that can head no sequence. -/
theorem utf8Decode_other (fuel b : Nat) (rest : List Nat) (h1 : ¬b < 128)
    (h2 : ¬((0xC2 ≤ b && b ≤ 0xDF) = true)) (h3 : ¬((0xE0 ≤ b && b ≤ 0xEF) = true))
    (h4 : ¬((0xF0 ≤ b && b ≤ 0xF4) = true)) :
    utf8DecodeGo (fuel + 1) (b :: rest) = replChar :: utf8DecodeGo fuel rest := by
  cases rest with
  | nil => rw [utf8DecodeGo, if_neg h1, if_neg h2, if_neg h3, if_neg h4]
  | cons x r1 =>
    cases r1 with
    | nil => rw [utf8DecodeGo, if_neg h1, if_neg h2, if_neg h3, if_neg h4]
    | cons y r2 =>
      cases r2 with
      | nil => rw [utf8DecodeGo, if_neg h1, if_neg h2, if_neg h3, if_neg h4]
      | cons z r3 => rw [utf8DecodeGo, if_neg h1, if_neg h2, if_neg h3, if_neg h4]

/-- Invalid input forces a replacement marker into the decoder's output,
for any sufficient fuel. -/
theorem utf8Go_replaces (fuel : Nat) : ∀ (bs : List Nat), bs.length ≤ fuel →
    utf8ValidGo fuel bs = false → replChar ∈ utf8DecodeGo fuel bs := by
  induction fuel with
  | zero =>
    intro bs hlen hv
    have hnil : bs = [] := List.eq_nil_of_length_eq_zero (Nat.le_zero.mp hlen)
    subst hnil
    exact absurd hv (by decide)
  | succ fuel ih =>
    intro bs hlen hv
    cases bs with
    | nil =>
      rw [utf8ValidGo] at hv
      exact absurd hv (by decide)
    | cons b rest =>
      have hrest : rest.length ≤ fuel := by
        simp only [List.length_cons] at hlen
        omega
      by_cases hb : b < 128
      · rw [utf8Valid_ascii fuel b rest hb] at hv
        rw [utf8Decode_ascii fuel b rest hb]
        exact List.mem_cons_of_mem _ (ih rest hrest hv)
      · by_cases h2 : (0xC2 ≤ b && b ≤ 0xDF) = true
        · cases rest with
          | nil =>
            rw [utf8Decode_two_nil fuel b hb h2]
            exact List.mem_singleton.mpr rfl
          | cons b1 rest2 =>
            have hrest2 : rest2.length ≤ fuel := by
              simp only [List.length_cons] at hlen
              omega
            by_cases hc : isCont b1 = true
            · rw [utf8Valid_two fuel b b1 rest2 hb h2, if_pos hc] at hv
              rw [utf8Decode_two fuel b b1 rest2 hb h2, if_pos hc]
              exact List.mem_cons_of_mem _ (ih rest2 hrest2 hv)
            · rw [utf8Decode_two fuel b b1 rest2 hb h2, if_neg hc]
              exact List.mem_cons_self _ _
        · by_cases h3 : (0xE0 ≤ b && b ≤ 0xEF) = true
          · cases rest with
            | nil =>
              rw [utf8Decode_three_nil fuel b hb h2 h3]
              exact List.mem_singleton.mpr rfl
            | cons b1 rest2 =>
              by_cases hc1 : cont3first b b1 = true
              · cases rest2 with
                | nil =>
                  rw [utf8Decode_three_one fuel b b1 hb h2 h3, if_pos hc1]
                  exact List.mem_singleton.mpr rfl
                | cons b2 rest3 =>
                  have hrest3 : rest3.length ≤ fuel := by
                    simp only [List.length_cons] at hlen
                    omega
                  by_cases hc2 : isCont b2 = true
                  · rw [utf8Valid_three fuel b b1 b2 rest3 hb h2 h3,
                      if_pos hc1, if_pos hc2] at hv
                    rw [utf8Decode_three fuel b b1 b2 rest3 hb h2 h3,
                      if_pos hc1, if_pos hc2]
                    exact List.mem_cons_of_mem _ (ih rest3 hrest3 hv)
                  · rw [utf8Decode_three fuel b b1 b2 rest3 hb h2 h3,
                      if_pos hc1, if_neg hc2]
                    exact List.mem_cons_self _ _
              · cases rest2 with
                | nil =>
                  rw [utf8Decode_three_one fuel b b1 hb h2 h3, if_neg hc1]
                  exact List.mem_cons_self _ _
                | cons b2 rest3 =>
                  rw [utf8Decode_three fuel b b1 b2 rest3 hb h2 h3, if_neg hc1]
                  exact List.mem_cons_self _ _
          · by_cases h4 : (0xF0 ≤ b && b ≤ 0xF4) = true
            · cases rest with
              | nil =>
                rw [utf8Decode_four_nil fuel b hb h2 h3 h4]
                exact List.mem_singleton.mpr rfl
              | cons b1 rest2 =>
                by_cases hc1 : cont4first b b1 = true
                · cases rest2 with
                  | nil =>
                    rw [utf8Decode_four_one fuel b b1 hb h2 h3 h4, if_pos hc1]
                    exact List.mem_singleton.mpr rfl
                  | cons b2 rest3 =>
                    by_cases hc2 : isCont b2 = true
                    · cases rest3 with
                      | nil =>
                        rw [utf8Decode_four_two fuel b b1 b2 hb h2 h3 h4,
                          if_pos hc1, if_pos hc2]
                        exact List.mem_singleton.mpr rfl
                      | cons b3 rest4 =>
                        have hrest4 : rest4.length ≤ fuel := by
                          simp only [List.length_cons] at hlen
                          omega
                        by_cases hc3 : isCont b3 = true
                        · rw [utf8Valid_four fuel b b1 b2 b3 rest4 hb h2 h3 h4,
                            if_pos hc1, if_pos hc2, if_pos hc3] at hv
                          rw [utf8Decode_four fuel b b1 b2 b3 rest4 hb h2 h3 h4,
                            if_pos hc1, if_pos hc2, if_pos hc3]
                          exact List.mem_cons_of_mem _ (ih rest4 hrest4 hv)
                        · rw [utf8Decode_four fuel b b1 b2 b3 rest4 hb h2 h3 h4,
                            if_pos hc1, if_pos hc2, if_neg hc3]
                          exact List.mem_cons_self _ _
                    · cases rest3 with
                      | nil =>
                        rw [utf8Decode_four_two fuel b b1 b2 hb h2 h3 h4,
                          if_pos hc1, if_neg hc2]
                        exact List.mem_cons_self _ _
                      | cons b3 rest4 =>
                        rw [utf8Decode_four fuel b b1 b2 b3 rest4 hb h2 h3 h4,
                          if_pos hc1, if_neg hc2]
                        exact List.mem_cons_self _ _
                · cases rest2 with
                  | nil =>
                    rw [utf8Decode_four_one fuel b b1 hb h2 h3 h4, if_neg hc1]
                    exact List.mem_cons_self _ _
                  | cons b2 rest3 =>
                    cases rest3 with
                    | nil =>
                      rw [utf8Decode_four_two fuel b b1 b2 hb h2 h3 h4, if_neg hc1]
                      exact List.mem_cons_self _ _
                    | cons b3 rest4 =>
                      rw [utf8Decode_four fuel b b1 b2 b3 rest4 hb h2 h3 h4, if_neg hc1]
                      exact List.mem_cons_self _ _
            · rw [utf8Decode_other fuel b rest hb h2 h3 h4]
              exact List.mem_cons_self _ _

/-- C7: decoding the bytes of a matching archive entry is total — it always
produces a string (there is no exception case) — and whenever the bytes are
not valid UTF-8 the produced text carries the replacement marker. -/
theorem c7_decode_total_and_replaces (bs : List Nat) :
    (∃ s : String, utf8DecodeReplaceStr bs = s) ∧
    (utf8Valid bs = false → replChar ∈ (utf8DecodeReplaceStr bs).data) := by
  refine ⟨⟨_, rfl⟩, ?_⟩
  intro hv
  show replChar ∈ utf8DecodeReplace bs
  exact utf8Go_replaces bs.length bs (Nat.le_refl _) hv

/-- Witness for C7 at an invalid byte. -/
theorem c7_decode_total_and_replaces_witness :
    utf8Valid [255] = false ∧ replChar ∈ (utf8DecodeReplaceStr [255]).data :=
  ⟨by decide, (c7_decode_total_and_replaces [255]).2 (by decide)⟩

/-! ### Response bodies and JSON well-formedness (C8) -/

/-- String append concatenates the character data. -/
theorem strData_append (a b : String) : (a ++ b).data = a.data ++ b.data := by
  cases a
  cases b
  rfl

/-- The decimal rendering of a natural number starts with a digit. -/
theorem natReprChars_head_digit (n : Nat) :
    ∃ c cs, natReprChars n = c :: cs ∧ 48 ≤ c.toNat ∧ c.toNat ≤ 57 := by
  induction n using Nat.strong_induction_on with
  | _ n ih =>
    by_cases h : n < 10
    · refine ⟨Char.ofNat (48 + n), [], ?_, ?_, ?_⟩
      · rw [natReprChars, if_pos h]
      · interval_cases n <;> decide
      · interval_cases n <;> decide
    · obtain ⟨c, cs, hc, h1, h2⟩ := ih (n / 10) (Nat.div_lt_self (by omega) (by omega))
      refine ⟨c, cs ++ [Char.ofNat (48 + n % 10)], ?_, h1, h2⟩
      rw [natReprChars, if_neg h, hc]
      rfl

/-- No JSON value serializes to the fixed 405 body: every serialization
starts with a brace, a bracket, a quote, a letter of `null`/`true`/`false`,
a digit or a minus sign, never with `'M'`. -/
theorem jsonDumps_ne_method_not_allowed (j : Json) :
    jsonDumps j ≠ "Method Not Allowed" := by
  intro h
  cases j with
  | null => rw [jsonDumps] at h; exact absurd h (by decide)
  | bool b => cases b <;> (rw [jsonDumps] at h; exact absurd h (by decide))
  | num i =>
    rw [jsonDumps, intReprStr] at h
    by_cases hi : i < 0
    · rw [if_pos hi] at h
      have hd := congrArg String.data h
      rw [strData_append] at hd
      obtain ⟨c, cs, hc, h1, h2⟩ := natReprChars_head_digit i.natAbs
      rw [show (String.mk (natReprChars i.natAbs)).data = natReprChars i.natAbs from rfl,
        hc] at hd
      rw [show ("-" : String).data = ['-'] from rfl] at hd
      rw [show ("Method Not Allowed" : String).data
          = 'M' :: ("ethod Not Allowed" : String).data from rfl] at hd
      rw [List.singleton_append] at hd
      injection hd with hd1 _
      exact absurd hd1 (by decide)
    · rw [if_neg hi] at h
      have hd := congrArg String.data h
      obtain ⟨c, cs, hc, h1, h2⟩ := natReprChars_head_digit i.toNat
      rw [show (String.mk (natReprChars i.toNat)).data = natReprChars i.toNat from rfl,
        hc] at hd
      rw [show ("Method Not Allowed" : String).data
          = 'M' :: ("ethod Not Allowed" : String).data from rfl] at hd
      injection hd with hd1 _
      rw [hd1] at h1 h2
      revert h1 h2
      decide
  | str s =>
    rw [jsonDumps] at h
    have hd := congrArg String.data h
    rw [strData_append, strData_append] at hd
    rw [show ("\"" : String).data = ['"'] from rfl, List.singleton_append] at hd
    rw [show ("Method Not Allowed" : String).data
        = 'M' :: ("ethod Not Allowed" : String).data from rfl] at hd
    injection hd with hd1 _
    exact absurd hd1 (by decide)
  | arr l =>
    rw [jsonDumps] at h
    have hd := congrArg String.data h
    rw [strData_append, strData_append] at hd
    rw [show ("[" : String).data = ['['] from rfl, List.singleton_append] at hd
    rw [show ("Method Not Allowed" : String).data
        = 'M' :: ("ethod Not Allowed" : String).data from rfl] at hd
    injection hd with hd1 _
    exact absurd hd1 (by decide)
  | obj l =>
    rw [jsonDumps] at h
    have hd := congrArg String.data h
    rw [strData_append, strData_append] at hd
    rw [show ("\x7b" : String).data = ['\x7b'] from rfl, List.singleton_append] at hd
    rw [show ("Method Not Allowed" : String).data
        = 'M' :: ("ethod Not Allowed" : String).data from rfl] at hd
    injection hd with hd1 _
    exact absurd hd1 (by decide)

/-- Counterexample to C8 as stated: a non-POST invocation — an input-error
outcome in the spec's taxonomy — answers 405 with the plain-text body
`"Method Not Allowed"`, which is not the serialization of any JSON value. -/
theorem c8_counterexample_405_body :
    handler envFix netFix ⟨"GET", none⟩ = (⟨405, "Method Not Allowed"⟩, []) ∧
    ¬∃ j : Json, jsonDumps j = (handler envFix netFix ⟨"GET", none⟩).1.body := by
  refine ⟨rfl, ?_⟩
  rintro ⟨j, hj⟩
  exact jsonDumps_ne_method_not_allowed j hj

/-- C8 (amended): for every POST invocation the handler's response body is a
well-formed JSON serialization, whichever outcome occurs (success, missing
query, auth failure, upstream failure, unhandled failure); only the 405
wrong-method response carries a non-JSON plain-text body. -/
theorem c8_post_bodies_json (env : Env) (net : Net) (event : Event)
    (hm : event.httpMethod = "POST") :
    ∃ j : Json, (handler env net event).1.body = jsonDumps j := by
  simp only [handler]
  rw [if_neg (not_not_intro hm)]
  repeat' split
  all_goals exact ⟨_, rfl⟩

/-- Witness for C8 (amended) at a concrete POST invocation. -/
theorem c8_post_bodies_json_witness :
    ∃ j : Json, (handler envFix netFix eventFix).1.body = jsonDumps j :=
  c8_post_bodies_json envFix netFix eventFix rfl

end UsdbSearch
